import Mathlib

/-!
Verification of the Torrent Lifecycle Reconciliation and Disk-Quota
Enforcement subsystem of the bittorrent-download-app repository.

Shallow embedding conventions:
- JavaScript strings are modelled as `String` where only equality matters,
  and as `List Nat` of Unicode code points where per-character case
  mapping matters (tracker-utils.js normalizeInfoHash).
- JavaScript numbers used for byte sizes and progress fractions are
  modelled as `ℚ` (the code compares and subtracts them exactly in the
  ranges exercised here).
- The volatile engine registry (webtorrent client) is modelled as a list
  of identifiers; persisted rows as lists of records.
- Fallible steps return `Except String` or carry explicit success flags.
-/

namespace TrackerUtils

/-- JavaScript String.prototype.toLowerCase on one code point: ASCII
uppercase letters (codes 65..90) map to their lowercase forms, everything
else in the infoHash alphabet is fixed. -/
def jsCharToLower (c : Nat) : Nat :=
  if 65 ≤ c ∧ c ≤ 90 then c + 32 else c

/-- JavaScript String.prototype.toLowerCase over a string of code points. -/
def jsToLowerCase (s : List Nat) : List Nat :=
  s.map jsCharToLower

/-- Embedding of normalizeInfoHash (tracker-utils.js): every length branch
returns the lowercased input (the 40- and 32-length branches and the
fallback branch all end in toLowerCase). -/
def normalizeInfoHash (s : List Nat) : List Nat :=
  if s.length = 40 then jsToLowerCase s
  else if s.length = 32 then jsToLowerCase s
  else jsToLowerCase s

/-- A code point is an uppercase letter when it lies in the ASCII range
65..90. -/
def isUpperCode (c : Nat) : Prop := 65 ≤ c ∧ c ≤ 90

theorem jsCharToLower_idem (c : Nat) :
    jsCharToLower (jsCharToLower c) = jsCharToLower c := by
  unfold jsCharToLower
  split
  · rw [if_neg (by omega)]
  · rfl

theorem jsCharToLower_not_upper (c : Nat) :
    ¬ isUpperCode (jsCharToLower c) := by
  unfold jsCharToLower isUpperCode
  split <;> omega

theorem normalizeInfoHash_eq_lower (s : List Nat) :
    normalizeInfoHash s = jsToLowerCase s := by
  unfold normalizeInfoHash
  split <;> try rfl
  split <;> rfl

/-- C10: identifier normalization is idempotent and its output contains no
uppercase characters. -/
theorem c10_normalize_idempotent_lowercase (s : List Nat) :
    normalizeInfoHash (normalizeInfoHash s) = normalizeInfoHash s ∧
    ∀ c ∈ normalizeInfoHash s, ¬ isUpperCode c := by
  constructor
  · rw [normalizeInfoHash_eq_lower s, normalizeInfoHash_eq_lower]
    unfold jsToLowerCase
    rw [List.map_map]
    exact List.map_congr_left fun c _ => jsCharToLower_idem c
  · intro c hc
    rw [normalizeInfoHash_eq_lower] at hc
    unfold jsToLowerCase at hc
    obtain ⟨d, _, rfl⟩ := List.mem_map.mp hc
    exact jsCharToLower_not_upper d

end TrackerUtils

namespace Sampler

/-- Per-session progress-tracking state: the done flag on the live
torrent object — a field the engine itself owns and writes — and the
persisted completion timestamp of the record. -/
structure SamplerState where
  done : Bool
  dateCompleted : Option Nat
deriving DecidableEq, Repr

/-- The body of one 5s sampler tick for one session (server.js
setupPeriodicTasks): when the sampled progress is 1 and the torrent's
done flag is not set, the tick stamps dateCompleted with the current
time and sets the flag; otherwise it leaves both untouched. -/
def sampleStep (st : SamplerState) (t : Nat) (p : ℚ) : SamplerState :=
  if p = 1 ∧ st.done = false then { done := true, dateCompleted := some t }
  else st

/-- The engine's own write to the shared done flag: the engine sets
torrent.done to true in the same synchronous task in which the download
completes — that is, before any later timer callback can observe
progress 1 with the flag still clear (this codebase itself listens for
the resulting done event in webtorrent-client setupTorrentEvents). -/
def engineStep (st : SamplerState) (p : ℚ) : SamplerState :=
  if p = 1 then { st with done := true } else st

/-- One tick as the sampler actually observes it: by the time the 5s
callback reads the torrent, the engine has already marked a completed
download done. -/
def tickStep (st : SamplerState) (t : Nat) (p : ℚ) : SamplerState :=
  sampleStep (engineStep st p) t p

/-- Run over a sequence of progress samples, starting at tick index t. -/
def runSampler : SamplerState → Nat → List ℚ → SamplerState
  | st, _, [] => st
  | st, t, p :: ps => runSampler (tickStep st t p) (t + 1) ps

/-- Trace of the tick indices at which the sampler's completion guard
fires and stamps dateCompleted. -/
def stampEvents : SamplerState → Nat → List ℚ → List Nat
  | _, _, [] => []
  | st, t, p :: ps =>
      (if p = 1 ∧ (engineStep st p).done = false then [t] else []) ++
        stampEvents (tickStep st t p) (t + 1) ps

theorem stampEvents_never (ps : List ℚ) :
    ∀ (st : SamplerState) (t : Nat), stampEvents st t ps = [] := by
  induction ps with
  | nil => intro st t; rfl
  | cons p ps ih =>
      intro st t
      have hguard : ¬ (p = 1 ∧ (engineStep st p).done = false) := by
        rintro ⟨hp, hd⟩
        subst hp
        simp [engineStep] at hd
      simp only [stampEvents, if_neg hguard, List.nil_append]
      exact ih _ _

theorem tickStep_dateCompleted (st : SamplerState) (t : Nat) (p : ℚ) :
    (tickStep st t p).dateCompleted = st.dateCompleted := by
  unfold tickStep sampleStep engineStep
  by_cases hp : p = (1 : ℚ)
  · subst hp
    simp
  · simp [hp]

theorem runSampler_dateCompleted (ps : List ℚ) :
    ∀ (st : SamplerState) (t : Nat),
    (runSampler st t ps).dateCompleted = st.dateCompleted := by
  induction ps with
  | nil => intro st t; rfl
  | cons p ps ih =>
      intro st t
      simp only [runSampler]
      rw [ih, tickStep_dateCompleted]

/-- C1: once the engine's own write to the shared done flag is modelled
— the engine marks a completed torrent done in the same synchronous task
in which the download finishes, before the next 5s tick — the sampler's
guard progress equal 1 and not done never fires: over the spec's test
vector 0.5, 1, 1, 1 no stamp happens and the persisted dateCompleted
stays unset, and in fact no sample sequence ever produces a stamp. The
claim describes the intended edge-triggered stamping; the code's guard
keys on the engine-owned flag and so never stamps. -/
theorem c1_completion_never_stamped :
    stampEvents ⟨false, none⟩ 0 [1/2, 1, 1, 1] = []
    ∧ (runSampler ⟨false, none⟩ 0 [1/2, 1, 1, 1]).dateCompleted = none
    ∧ ∀ ps : List ℚ, stampEvents ⟨false, none⟩ 0 ps = [] := by
  refine ⟨stampEvents_never _ _ _, ?_, fun ps => stampEvents_never _ _ _⟩
  rw [runSampler_dateCompleted]

end Sampler

namespace DiskManager

/-- One top-level entry of the download root as the quota enforcer sees it:
its directory name, its modification time, its recursive byte size, and
whether fs.rm would succeed on it. -/
structure DirEntry where
  name : String
  mtime : Nat
  size : ℚ
  removable : Bool
deriving DecidableEq

/-- State of the enforcer run: the download-root entries and the set of
registered active identifiers (DiskManager.activeTorrents). -/
structure DiskState where
  dirs : List DirEntry
  active : List String
deriving DecidableEq

/-- getDirSize of the download root: recursive byte sum over entries. -/
def totalSize (dirs : List DirEntry) : ℚ :=
  (dirs.map (fun d => d.size)).sum

/-- The entries whose name is not a registered active identifier
(the continue branch of getOldestInactiveTorrent skips the rest). -/
def candidates (s : DiskState) : List DirEntry :=
  s.dirs.filter (fun d => !(s.active.contains d.name))

/-- Head of a stable ascending sort by mtime: the first element of
minimal modification time. -/
def oldestAux : DirEntry → List DirEntry → DirEntry
  | best, [] => best
  | best, d :: ds => oldestAux (if d.mtime < best.mtime then d else best) ds

/-- getOldestInactiveTorrent: among non-active entries, the one with the
oldest modification time (sort by mtime, take the first). -/
def oldestInactive (s : DiskState) : Option DirEntry :=
  match candidates s with
  | [] => none
  | c :: cs => some (oldestAux c cs)

/-- removeDirectory: fs.rm with recursive and force options; returns true
and drops the entry on success, returns false and leaves the tree
untouched on failure. -/
def removeDirectory (s : DiskState) (d : DirEntry) : Bool × DiskState :=
  if d.removable then
    (true, { s with dirs := s.dirs.filter (fun e => !(e.name == d.name)) })
  else (false, s)

/-- One iteration body of the cleanup loop: fetch the oldest inactive
entry and attempt to delete it, recording the attempted entry and whether
the deletion succeeded. -/
def stepOnce (s : DiskState) : Option ((DirEntry × Bool) × DiskState) :=
  match oldestInactive s with
  | none => none
  | some d =>
      let r := removeDirectory s d
      some ((d, r.1), r.2)

/-- The cleanup while-loop of performCleanup: runs while sizeToFree is
positive and attempts remain (the fuel starts at 10), subtracting the
reclaimed size only when the deletion succeeded. Returns the list of
attempted deletions in order together with the final state. -/
def cleanupLoop : Nat → DiskState → ℚ → List (DirEntry × Bool) × DiskState
  | 0, s, _ => ([], s)
  | fuel + 1, s, stf =>
      if stf ≤ 0 then ([], s)
      else
        match stepOnce s with
        | none => ([], s)
        | some (e, s1) =>
            let rest := cleanupLoop fuel s1 (if e.2 then stf - e.1.size else stf)
            (e :: rest.1, rest.2)

/-- Default 10GB ceiling used when the configured limit is invalid. -/
def defaultMaxDiskSpace : ℚ := 10737418240

/-- The ceiling actually enforced: performCleanup resets a missing or
non-positive maxDiskSpace to the 10GB default before comparing. -/
def effMax (max : ℚ) : ℚ :=
  if max ≤ 0 then defaultMaxDiskSpace else max

/-- performCleanup (disk-manager.js): measure usage; below the ceiling do
nothing; otherwise loop deleting oldest inactive entries with
sizeToFree initialized to usage minus 90 percent of the ceiling and at
most 10 attempts. -/
def performCleanup (s : DiskState) (max : ℚ) :
    List (DirEntry × Bool) × DiskState :=
  if totalSize s.dirs < effMax max then ([], s)
  else cleanupLoop 10 s (totalSize s.dirs - effMax max * (9 / 10))

/-- Replay of one recorded attempt on a state. -/
def applyStep (s : DiskState) (e : DirEntry × Bool) : DiskState :=
  if e.2 then (removeDirectory s e.1).2 else s

/-- Replay of a recorded attempt trace on a state. -/
def applyTrace : DiskState → List (DirEntry × Bool) → DiskState
  | s, [] => s
  | s, e :: tr => applyTrace (applyStep s e) tr

/-- Total byte size reclaimed by the successful deletions of a trace. -/
def freedSize (tr : List (DirEntry × Bool)) : ℚ :=
  ((tr.filter (fun e => e.2)).map (fun e => e.1.size)).sum

theorem freedSize_nil : freedSize [] = 0 := rfl

theorem freedSize_cons (e : DirEntry × Bool) (tr : List (DirEntry × Bool)) :
    freedSize (e :: tr) = (if e.2 then e.1.size else 0) + freedSize tr := by
  unfold freedSize
  by_cases h : e.2 <;> simp [h]

theorem removeDirectory_of_false (s : DiskState) (d : DirEntry)
    (h : (removeDirectory s d).1 = false) : (removeDirectory s d).2 = s := by
  unfold removeDirectory at h ⊢
  by_cases hr : d.removable <;> simp [hr] at h ⊢

theorem applyStep_stepOnce (s : DiskState) (e : DirEntry × Bool)
    (s1 : DiskState) (h : stepOnce s = some (e, s1)) :
    applyStep s e = s1 := by
  unfold stepOnce at h
  cases ho : oldestInactive s with
  | none => rw [ho] at h; cases h
  | some d =>
      rw [ho] at h
      simp only [Option.some.injEq, Prod.mk.injEq] at h
      obtain ⟨he, hs⟩ := h
      subst he
      subst hs
      unfold applyStep
      cases hx : (removeDirectory s d).1 with
      | false =>
          simp only [hx, Bool.false_eq_true, if_false]
          exact (removeDirectory_of_false s d hx).symm
      | true =>
          simp only [hx, if_true]

theorem stepOnce_none_iff (s : DiskState) :
    stepOnce s = none ↔ oldestInactive s = none := by
  unfold stepOnce
  cases oldestInactive s <;> simp

theorem stepOnce_some_facts (s : DiskState) (e : DirEntry × Bool)
    (s1 : DiskState) (h : stepOnce s = some (e, s1)) :
    oldestInactive s = some e.1 ∧ e.2 = (removeDirectory s e.1).1 := by
  unfold stepOnce at h
  cases ho : oldestInactive s with
  | none => rw [ho] at h; cases h
  | some d =>
      rw [ho] at h
      simp only [Option.some.injEq, Prod.mk.injEq] at h
      obtain ⟨he, _⟩ := h
      subst he
      exact ⟨rfl, rfl⟩

/-- Characterization of the cleanup while-loop: the final state is the
replay of the attempt trace; the number of attempts never exceeds the
fuel; on exit either the remaining size to free is non-positive, or no
candidate remains, or the fuel is exhausted; and every attempt in the
trace was made while the remaining size to free was still positive, on
the then-current oldest inactive candidate, recording the actual outcome
of the deletion. -/
theorem cleanupLoop_char (fuel : Nat) :
    ∀ (s : DiskState) (stf : ℚ),
    applyTrace s (cleanupLoop fuel s stf).1 = (cleanupLoop fuel s stf).2
    ∧ (cleanupLoop fuel s stf).1.length ≤ fuel
    ∧ (stf - freedSize (cleanupLoop fuel s stf).1 ≤ 0
       ∨ oldestInactive (cleanupLoop fuel s stf).2 = none
       ∨ (cleanupLoop fuel s stf).1.length = fuel)
    ∧ (∀ pre e post, (cleanupLoop fuel s stf).1 = pre ++ e :: post →
        0 < stf - freedSize pre
        ∧ oldestInactive (applyTrace s pre) = some e.1
        ∧ e.2 = (removeDirectory (applyTrace s pre) e.1).1) := by
  induction fuel with
  | zero =>
      intro s stf
      refine ⟨rfl, Nat.le_refl 0, Or.inr (Or.inr rfl), ?_⟩
      intro pre e post hpre
      exact absurd hpre (by simp [cleanupLoop])
  | succ fuel ih =>
      intro s stf
      by_cases hstf : stf ≤ 0
      · have hr : cleanupLoop (fuel + 1) s stf = ([], s) := by
          simp only [cleanupLoop]
          rw [if_pos hstf]
        rw [hr]
        refine ⟨rfl, Nat.zero_le _, Or.inl ?_, ?_⟩
        · rw [freedSize_nil]; linarith
        · intro pre e post hpre
          exact absurd hpre (by simp)
      · cases hso : stepOnce s with
        | none =>
            have hr : cleanupLoop (fuel + 1) s stf = ([], s) := by
              simp only [cleanupLoop]
              rw [if_neg hstf, hso]
            rw [hr]
            refine ⟨rfl, Nat.zero_le _, Or.inr (Or.inl ?_), ?_⟩
            · exact (stepOnce_none_iff s).mp hso
            · intro pre e post hpre
              exact absurd hpre (by simp)
        | some es =>
            obtain ⟨e, s1⟩ := es
            have hr : cleanupLoop (fuel + 1) s stf =
                (e :: (cleanupLoop fuel s1
                        (if e.2 then stf - e.1.size else stf)).1,
                 (cleanupLoop fuel s1
                        (if e.2 then stf - e.1.size else stf)).2) := by
              simp only [cleanupLoop]
              rw [if_neg hstf, hso]
            have hstep := applyStep_stepOnce s e s1 hso
            obtain ⟨hold, hrem⟩ := stepOnce_some_facts s e s1 hso
            obtain ⟨ih1, ih2, ih3, ih4⟩ :=
              ih s1 (if e.2 then stf - e.1.size else stf)
            have hfreed : ∀ tr, stf - freedSize (e :: tr) =
                (if e.2 then stf - e.1.size else stf) - freedSize tr := by
              intro tr
              rw [freedSize_cons]
              by_cases hb : e.2
              · simp only [hb, if_true]
                ring
              · simp only [hb, Bool.false_eq_true, if_false]
                ring
            rw [hr]
            refine ⟨?_, ?_, ?_, ?_⟩
            · show applyTrace s (e :: _) = _
              simp only [applyTrace]
              rw [hstep]
              exact ih1
            · simpa using Nat.succ_le_succ ih2
            · rcases ih3 with h1 | h2 | h3
              · left; rw [hfreed]; exact h1
              · right; left; exact h2
              · right; right; simpa using h3
            · intro pre e' post hpre
              cases pre with
              | nil =>
                  simp only [List.nil_append, List.cons.injEq] at hpre
                  obtain ⟨he', _⟩ := hpre
                  subst he'
                  refine ⟨?_, ?_, ?_⟩
                  · rw [freedSize_nil]; linarith
                  · simpa [applyTrace] using hold
                  · simpa [applyTrace] using hrem
              | cons e0 pre' =>
                  simp only [List.cons_append, List.cons.injEq] at hpre
                  obtain ⟨he0, htail⟩ := hpre
                  subst he0
                  obtain ⟨g1, g2, g3⟩ := ih4 pre' e' post htail
                  refine ⟨?_, ?_, ?_⟩
                  · rw [hfreed pre']; exact g1
                  · simp only [applyTrace]
                    rw [hstep]
                    exact g2
                  · simp only [applyTrace]
                    rw [hstep]
                    exact g3

/-- C3: one run of the quota enforcer. If measured usage is strictly below
the (validated) ceiling nothing is deleted; otherwise every attempt in the
run targets the then-current oldest non-active candidate and happens while
projected usage still exceeds 90 percent of the ceiling, and the run stops
exactly when projected usage is at most 90 percent of the ceiling, or no
candidate remains, or 10 attempts have been made, whichever comes first. -/
theorem c3_enforce_stops (s : DiskState) (max : ℚ) :
    (totalSize s.dirs < effMax max → performCleanup s max = ([], s))
    ∧ (effMax max ≤ totalSize s.dirs →
        (performCleanup s max).1.length ≤ 10
        ∧ (totalSize s.dirs - freedSize (performCleanup s max).1
             ≤ effMax max * (9 / 10)
           ∨ oldestInactive (performCleanup s max).2 = none
           ∨ (performCleanup s max).1.length = 10)
        ∧ (∀ pre e post, (performCleanup s max).1 = pre ++ e :: post →
            effMax max * (9 / 10) < totalSize s.dirs - freedSize pre
            ∧ oldestInactive (applyTrace s pre) = some e.1
            ∧ e.2 = (removeDirectory (applyTrace s pre) e.1).1)) := by
  constructor
  · intro h
    unfold performCleanup
    rw [if_pos h]
  · intro h
    have hnot : ¬ totalSize s.dirs < effMax max := not_lt.mpr h
    have hpc : performCleanup s max =
        cleanupLoop 10 s (totalSize s.dirs - effMax max * (9 / 10)) := by
      unfold performCleanup
      rw [if_neg hnot]
    obtain ⟨-, hlen, hstop, hstepwise⟩ :=
      cleanupLoop_char 10 s (totalSize s.dirs - effMax max * (9 / 10))
    rw [hpc]
    refine ⟨hlen, ?_, ?_⟩
    · rcases hstop with h1 | h2 | h3
      · left; linarith
      · right; left; exact h2
      · right; right; exact h3
    · intro pre e post htr
      obtain ⟨g1, g2, g3⟩ := hstepwise pre e post htr
      exact ⟨by linarith, g2, g3⟩

/-- Concrete root for the C3 witness: two inactive removable directories
of 60 bytes each against a 100-byte ceiling. -/
def wState3 : DiskState :=
  { dirs := [{ name := "a", mtime := 0, size := 60, removable := true },
             { name := "b", mtime := 1, size := 60, removable := true }],
    active := [] }

/-- Witness for C3: on a root holding 120 bytes against a 100-byte
ceiling the enforcer runs and stops within the 10-attempt budget with one
of the three stopping causes. -/
theorem c3_witness :
    (performCleanup wState3 100).1.length ≤ 10
    ∧ (totalSize wState3.dirs - freedSize (performCleanup wState3 100).1
         ≤ effMax 100 * (9 / 10)
       ∨ oldestInactive (performCleanup wState3 100).2 = none
       ∨ (performCleanup wState3 100).1.length = 10) := by
  have h := (c3_enforce_stops wState3 100).2
    (by norm_num [effMax, totalSize, wState3])
  exact ⟨h.1, h.2.1⟩

theorem oldestAux_mem (c : DirEntry) (cs : List DirEntry) :
    oldestAux c cs ∈ c :: cs := by
  induction cs generalizing c with
  | nil => simp [oldestAux]
  | cons d ds ih =>
      simp only [oldestAux]
      by_cases h : d.mtime < c.mtime
      · rw [if_pos h]
        have h' := ih d
        simp only [List.mem_cons] at h' ⊢
        tauto
      · rw [if_neg h]
        have h' := ih c
        simp only [List.mem_cons] at h' ⊢
        tauto

theorem oldestInactive_not_active (s : DiskState) (d : DirEntry)
    (h : oldestInactive s = some d) : ¬ d.name ∈ s.active := by
  unfold oldestInactive at h
  cases hc : candidates s with
  | nil => rw [hc] at h; cases h
  | cons c cs =>
      rw [hc] at h
      simp only [Option.some.injEq] at h
      subst h
      have hmem : oldestAux c cs ∈ candidates s := by
        rw [hc]; exact oldestAux_mem c cs
      unfold candidates at hmem
      have hp := List.of_mem_filter hmem
      simpa using hp

theorem applyStep_active (s : DiskState) (e : DirEntry × Bool) :
    (applyStep s e).active = s.active := by
  by_cases hb : e.2 <;> by_cases hr : e.1.removable <;>
    simp [applyStep, removeDirectory, hb, hr]

theorem applyTrace_active (s : DiskState) (tr : List (DirEntry × Bool)) :
    (applyTrace s tr).active = s.active := by
  induction tr generalizing s with
  | nil => rfl
  | cons e tr ih =>
      simp only [applyTrace]
      rw [ih (applyStep s e), applyStep_active]

/-- C4 amended: protection is keyed on the on-disk directory name only —
no directory whose name is a registered active identifier is ever
attempted or deleted by the enforcer. (A directory of an active torrent
whose on-disk name is the display name rather than the identifier is not
protected; see the counterexample.) -/
theorem c4_amended_name_protection (s : DiskState) (max : ℚ)
    (e : DirEntry × Bool) (he : e ∈ (performCleanup s max).1) :
    ¬ e.1.name ∈ s.active := by
  by_cases hlt : totalSize s.dirs < effMax max
  · have hz : performCleanup s max = ([], s) := by
      unfold performCleanup
      rw [if_pos hlt]
    rw [hz] at he
    cases he
  · have hpc : (performCleanup s max).1 =
        (cleanupLoop 10 s (totalSize s.dirs - effMax max * (9 / 10))).1 := by
      unfold performCleanup
      rw [if_neg hlt]
    rw [hpc] at he
    obtain ⟨pre, post, htr⟩ := List.append_of_mem he
    obtain ⟨-, hold, -⟩ :=
      (cleanupLoop_char 10 s
        (totalSize s.dirs - effMax max * (9 / 10))).2.2.2 pre e post htr
    have hna := oldestInactive_not_active _ _ hold
    rw [applyTrace_active s pre] at hna
    exact hna

/-- A directory belongs to a torrent when its on-disk name is either the
torrent identifier or the torrent display name (the dual naming scheme the
engine uses). -/
def dirMatchesTorrent (infoHash displayName : String) (d : DirEntry) :
    Prop :=
  d.name = infoHash ∨ d.name = displayName

/-- Root state for the C4 counterexample: the torrent with identifier aaa
is registered active, but its on-disk directory carries the display name
movie; a second directory carries the identifier itself. Usage is 120
bytes against a 100-byte ceiling. -/
def cex4State : DiskState :=
  { dirs := [{ name := "movie", mtime := 0, size := 60, removable := true },
             { name := "aaa", mtime := 5, size := 60, removable := true }],
    active := ["aaa"] }

/-- C4 counterexample: with identifier aaa registered active and its
directory stored under the display name movie, one enforcement run selects
and successfully deletes that very directory — a directory belonging to an
active torrent is evicted because protection keys on the on-disk name, not
on torrent membership. -/
theorem c4_counterexample :
    "aaa" ∈ cex4State.active
    ∧ (performCleanup cex4State 100).1 =
        [({ name := "movie", mtime := 0, size := 60, removable := true },
          true)]
    ∧ dirMatchesTorrent "aaa" "movie"
        { name := "movie", mtime := 0, size := 60, removable := true } := by
  refine ⟨by simp [cex4State], ?_, Or.inr rfl⟩
  have hpc : performCleanup cex4State 100 = cleanupLoop 10 cex4State 30 := by
    unfold performCleanup
    rw [if_neg (by norm_num [totalSize, cex4State, effMax])]
    congr 1
    norm_num [totalSize, cex4State, effMax]
  rw [hpc]
  have h1 : ¬ (30 : ℚ) ≤ 0 := by norm_num
  have hso : stepOnce cex4State =
      some (({ name := "movie", mtime := 0, size := 60, removable := true },
             true),
            { dirs := [{ name := "aaa", mtime := 5, size := 60,
                         removable := true }],
              active := ["aaa"] }) := by decide
  simp only [cleanupLoop, hso, if_neg h1]
  norm_num [cleanupLoop]

/-- Witness for the C4 amended theorem: in the counterexample state the
attempted entry movie is indeed not a registered active identifier. -/
theorem c4_witness :
    ¬ ({ name := "movie", mtime := 0, size := 60, removable := true } :
        DirEntry).name ∈ cex4State.active := by
  refine c4_amended_name_protection cex4State 100
    ({ name := "movie", mtime := 0, size := 60, removable := true }, true)
    ?_
  have hpc : performCleanup cex4State 100 = cleanupLoop 10 cex4State 30 := by
    unfold performCleanup
    rw [if_neg (by norm_num [totalSize, cex4State, effMax])]
    congr 1
    norm_num [totalSize, cex4State, effMax]
  rw [hpc]
  have h1 : ¬ (30 : ℚ) ≤ 0 := by norm_num
  have hso : stepOnce cex4State =
      some (({ name := "movie", mtime := 0, size := 60, removable := true },
             true),
            { dirs := [{ name := "aaa", mtime := 5, size := 60,
                         removable := true }],
              active := ["aaa"] }) := by decide
  simp only [cleanupLoop, hso, if_neg h1]
  norm_num [cleanupLoop]

/-- When the oldest inactive candidate cannot be deleted, the loop body
changes nothing, so the whole run spends every remaining attempt on that
same candidate. -/
theorem cleanupLoop_all_fail (fuel : Nat) (s : DiskState) (stf : ℚ)
    (d : DirEntry) (hstf : 0 < stf) (hc : oldestInactive s = some d)
    (hfail : d.removable = false) :
    cleanupLoop fuel s stf = (List.replicate fuel (d, false), s) := by
  induction fuel with
  | zero => simp [cleanupLoop]
  | succ fuel ih =>
      have hrm : removeDirectory s d = (false, s) := by
        unfold removeDirectory
        rw [hfail]
        simp
      have hso : stepOnce s = some ((d, false), s) := by
        unfold stepOnce
        rw [hc]
        simp [hrm]
      simp only [cleanupLoop, hso, if_neg (not_le.mpr hstf)]
      simp only [Bool.false_eq_true, if_false]
      rw [ih]
      simp [List.replicate_succ]

/-- Root state for the C5 counterexample: the oldest candidate old cannot
be deleted, while a second removable candidate new exists; usage is 150
bytes against a 100-byte ceiling. -/
def cex5State : DiskState :=
  { dirs := [{ name := "old", mtime := 0, size := 50, removable := false },
             { name := "new", mtime := 5, size := 100, removable := true }],
    active := [] }

/-- C5 counterexample: when deleting the oldest candidate fails, the
enforcement run does not move on to the different candidate new — it
retries the very same directory old on all 10 attempts and never attempts
new at all. -/
theorem c5_counterexample :
    (performCleanup cex5State 100).1 =
      List.replicate 10
        ({ name := "old", mtime := 0, size := 50, removable := false },
         false)
    ∧ ∀ e ∈ (performCleanup cex5State 100).1,
        e.1.name ≠ "new" := by
  have hpc : performCleanup cex5State 100 = cleanupLoop 10 cex5State 60 := by
    unfold performCleanup
    rw [if_neg (by norm_num [totalSize, cex5State, effMax])]
    congr 1
    norm_num [totalSize, cex5State, effMax]
  have hall := cleanupLoop_all_fail 10 cex5State 60
    { name := "old", mtime := 0, size := 50, removable := false }
    (by norm_num) (by decide) (by decide)
  rw [hpc, hall]
  refine ⟨rfl, ?_⟩
  intro e he
  have := List.eq_of_mem_replicate he
  subst this
  decide

/-- C5 amended: a deletion failure is absorbed (the enforcement function
is total and the loop continues), but the next attempt targets the same
still-oldest candidate rather than a different one, until the attempt
budget runs out. -/
theorem c5_amended_failed_candidate_retried (s : DiskState) (d : DirEntry)
    (stf : ℚ) (fuel : Nat) (hstf : 0 < stf)
    (hc : oldestInactive s = some d) (hfail : d.removable = false) :
    (cleanupLoop (fuel + 2) s stf).1.take 2 = [(d, false), (d, false)] := by
  rw [cleanupLoop_all_fail (fuel + 2) s stf d hstf hc hfail]
  rw [List.take_replicate]
  rw [Nat.min_eq_left (by omega)]
  rfl

/-- Witness for the C5 amended theorem at the counterexample state: the
first two of the ten attempts both target the unremovable directory
old. -/
theorem c5_witness :
    (cleanupLoop 10 cex5State 60).1.take 2 =
      [({ name := "old", mtime := 0, size := 50, removable := false },
        false),
       ({ name := "old", mtime := 0, size := 50, removable := false },
        false)] :=
  c5_amended_failed_candidate_retried cex5State
    { name := "old", mtime := 0, size := 50, removable := false }
    60 8 (by norm_num) (by decide) (by decide)

end DiskManager

namespace Store

/-- Input row for a torrent_files create: the index field is optional
because some call sites omit it, in which case the Prisma schema default
0 applies. -/
structure FileInput where
  path : String
  name : String
  size : ℚ
  progress : ℚ
  isSelected : Bool
  index : Option Nat
deriving DecidableEq

/-- A persisted torrent_files row. -/
structure FileRow where
  torrentId : String
  path : String
  name : String
  size : ℚ
  progress : ℚ
  isSelected : Bool
  index : Nat
deriving DecidableEq

/-- Prisma create of one file row: an omitted index defaults to 0 per the
schema. -/
def rowOfInput (torrentId : String) (f : FileInput) : FileRow :=
  { torrentId := torrentId, path := f.path, name := f.name, size := f.size,
    progress := f.progress, isSelected := f.isSelected,
    index := f.index.getD 0 }

/-- dbService.addTorrentFiles: first deletes every existing row of the
parent torrent, then inserts the given rows. -/
def addTorrentFiles (store : List FileRow) (torrentId : String)
    (files : List FileInput) : List FileRow :=
  store.filter (fun r => !(r.torrentId == torrentId))
    ++ files.map (rowOfInput torrentId)

/-- Engine-side view of a file when a file set is persisted. -/
structure EngineFile where
  path : String
  name : String
  length : ℚ
  progress : ℚ
deriving DecidableEq

/-- File inputs built by the progress sampler when it creates a missing
record (server.js): the JavaScript map over (file, index) stores each
ordinal explicitly. -/
def samplerFileRecordsFrom : Nat → List EngineFile → List FileInput
  | _, [] => []
  | i, f :: fs =>
      { path := f.path, name := f.name, size := f.length,
        progress := f.progress, isSelected := true, index := some i }
        :: samplerFileRecordsFrom (i + 1) fs

/-- The sampler starts the ordinals at 0. -/
def samplerFileRecords (files : List EngineFile) : List FileInput :=
  samplerFileRecordsFrom 0 files

/-- File inputs built by processMetadata (torrent-service.js): no index
field is supplied at all, so every created row receives the schema
default 0. -/
def metadataFileData (files : List EngineFile) : List FileInput :=
  files.map (fun f =>
    { path := f.path, name := f.name, size := f.length, progress := 0,
      isSelected := true, index := none })

/-- Ordinal indexes of the rows belonging to one parent torrent. -/
def indexesOf (store : List FileRow) (torrentId : String) : List Nat :=
  (store.filter (fun r => r.torrentId == torrentId)).map (fun r => r.index)

theorem filter_erase_self (store : List FileRow) (tid : String) :
    (store.filter (fun r => !(r.torrentId == tid))).filter
      (fun r => r.torrentId == tid) = [] := by
  induction store with
  | nil => rfl
  | cons r store ih =>
      by_cases h : r.torrentId = tid
      · have hb : (r.torrentId == tid) = true := by simp [h]
        simp only [List.filter_cons, hb, Bool.not_true, Bool.false_eq_true,
          if_false]
        exact ih
      · have hb : (r.torrentId == tid) = false := by simp [h]
        simp only [List.filter_cons, hb, Bool.not_false, if_true,
          Bool.false_eq_true, if_false]
        exact ih

theorem indexesOf_addTorrentFiles (store : List FileRow) (tid : String)
    (files : List FileInput) :
    indexesOf (addTorrentFiles store tid files) tid =
      (files.map (rowOfInput tid)).map (fun r => r.index) := by
  unfold indexesOf addTorrentFiles
  rw [List.filter_append, filter_erase_self]
  rw [List.filter_eq_self.mpr ?_]
  · simp
  · intro r hr
    obtain ⟨f, -, rfl⟩ := List.mem_map.mp hr
    simp [rowOfInput]

theorem samplerFileRecordsFrom_indexes (tid : String) (i : Nat)
    (files : List Store.EngineFile) :
    ((samplerFileRecordsFrom i files).map (rowOfInput tid)).map
      (fun r => r.index) = List.range' i files.length := by
  induction files generalizing i with
  | nil => rfl
  | cons f fs ih =>
      simp only [samplerFileRecordsFrom, List.map_cons, List.length_cons,
        List.range'_succ]
      rw [ih (i + 1)]
      rfl

/-- C9 amended: a file set persisted with explicit ordinals — as the
progress sampler does — has pairwise distinct index values within its
parent after addTorrentFiles; the metadata persistence path omits the
ordinal and defaults every row to index 0, so uniqueness fails there
(see the counterexample). -/
theorem c9_amended_sampler_indexes_unique (store : List FileRow)
    (tid : String) (files : List EngineFile) :
    (indexesOf (addTorrentFiles store tid (samplerFileRecords files))
      tid).Nodup := by
  rw [indexesOf_addTorrentFiles]
  unfold samplerFileRecords
  rw [samplerFileRecordsFrom_indexes]
  exact List.nodup_range' _ _

/-- The two engine files of the C9 counterexample. -/
def cex9Files : List EngineFile :=
  [{ path := "m/a.mp4", name := "a.mp4", length := 10, progress := 0 },
   { path := "m/b.srt", name := "b.srt", length := 1, progress := 0 }]

/-- C9 counterexample: persisting a two-file set through the
processMetadata path gives both child rows index 0 — the ordinal is not
unique within the parent. -/
theorem c9_counterexample :
    indexesOf (addTorrentFiles [] "t1" (metadataFileData cex9Files)) "t1"
      = [0, 0]
    ∧ ¬ (indexesOf (addTorrentFiles [] "t1"
          (metadataFileData cex9Files)) "t1").Nodup := by
  constructor
  · decide
  · decide

end Store

namespace Restore

/-- A persisted torrent record as the restore path reads it (fields not
consulted by restoreDownloadsFromDatabase are omitted; the child file
rows are modelled separately for the selection-reconciliation step). -/
structure DbRecord where
  infoHash : String
  magnetURI : String
  name : String
  isDeleted : Bool
  isPaused : Bool
  progress : ℚ
deriving DecidableEq

/-- dbService.getActiveTorrents: the records that are not deleted, not
paused, and have progress strictly below 1. -/
def getActiveTorrents (store : List DbRecord) : List DbRecord :=
  store.filter
    (fun r => !r.isDeleted && !r.isPaused && decide (r.progress < 1))

/-- One iteration of the restore loop for one record: skip when the
client already holds a session for the identifier, skip when the record
is paused, otherwise add a session for the identifier. Returns the
updated client and the created identifier, if any. -/
def restoreStep (client : List String) (r : DbRecord) :
    List String × Option String :=
  if client.contains r.infoHash then (client, none)
  else if r.isPaused then (client, none)
  else (r.infoHash :: client, some r.infoHash)

/-- The restore loop over a record list, collecting the identifiers for
which a session was created, in order. -/
def restoreLoop : List String → List DbRecord → List String
  | _, [] => []
  | client, r :: rs =>
      match restoreStep client r with
      | (client1, none) => restoreLoop client1 rs
      | (client1, some h) => h :: restoreLoop client1 rs

/-- restoreDownloadsFromDatabase: read the active records and recreate a
session per identifier. -/
def restoreDownloadsFromDatabase (store : List DbRecord)
    (client : List String) : List String :=
  restoreLoop client (getActiveTorrents store)

theorem restoreLoop_fresh (l : List DbRecord) :
    ∀ client : List String,
    (∀ r ∈ l, r.infoHash ∉ client) →
    (l.map (fun r => r.infoHash)).Nodup →
    (∀ r ∈ l, r.isPaused = false) →
    restoreLoop client l = l.map (fun r => r.infoHash) := by
  induction l with
  | nil => intro client _ _ _; rfl
  | cons r rs ih =>
      intro client hfresh hnd hnp
      have h1 : r.infoHash ∉ client := hfresh r (List.mem_cons_self r rs)
      have hb : client.contains r.infoHash = false := by
        simpa using h1
      have hp : r.isPaused = false := hnp r (List.mem_cons_self r rs)
      simp only [restoreLoop, restoreStep, hb, hp, Bool.false_eq_true,
        if_false, List.map_cons]
      rw [ih (r.infoHash :: client) ?_ ?_ ?_]
      · intro r' hr'
        simp only [List.mem_cons, not_or]
        constructor
        · intro heq
          have : r.infoHash ∈ rs.map (fun x => x.infoHash) :=
            List.mem_map.mpr ⟨r', hr', heq⟩
          rw [List.map_cons] at hnd
          exact (List.nodup_cons.mp hnd).1 this
        · exact hfresh r' (List.mem_cons_of_mem r hr')
      · rw [List.map_cons] at hnd
        exact (List.nodup_cons.mp hnd).2
      · intro r' hr'
        exact hnp r' (List.mem_cons_of_mem r hr')

/-- C6: starting with no live sessions, restoreAll creates a session for
exactly the records that are not deleted, not paused and incomplete, in
store order, provided identifiers are unique in the store (the database
enforces a unique constraint on infoHash). -/
theorem c6_restore_exact (store : List DbRecord)
    (hnd : (store.map (fun r => r.infoHash)).Nodup) :
    restoreDownloadsFromDatabase store [] =
      (store.filter (fun r =>
        !r.isDeleted && !r.isPaused && decide (r.progress < 1))).map
        (fun r => r.infoHash) := by
  unfold restoreDownloadsFromDatabase getActiveTorrents
  apply restoreLoop_fresh
  · intro r _ hmem
    cases hmem
  · have hsub : List.Sublist
        ((store.filter (fun r =>
          !r.isDeleted && !r.isPaused && decide (r.progress < 1))).map
            (fun r => r.infoHash))
        (store.map (fun r => r.infoHash)) :=
      (List.filter_sublist store).map _
    exact hnd.sublist hsub
  · intro r hr
    have hp := List.of_mem_filter hr
    simp only [Bool.and_eq_true, Bool.not_eq_true'] at hp
    exact hp.1.2

/-- Store for the C6 witness: one paused and one non-paused incomplete
record. -/
def wStore6 : List DbRecord :=
  [{ infoHash := "aaa", magnetURI := "m1", name := "A", isDeleted := false,
     isPaused := true, progress := 0 },
   { infoHash := "bbb", magnetURI := "m2", name := "B", isDeleted := false,
     isPaused := false, progress := 0 }]

/-- Witness for C6: over a store holding one paused and one non-paused
incomplete record, restore creates exactly one session — the non-paused
one. -/
theorem c6_witness :
    restoreDownloadsFromDatabase wStore6 [] = ["bbb"] := by
  rw [c6_restore_exact wStore6 (by decide)]
  decide

/-- A persisted child file row as the selection-reconciliation block
reads it (only the isSelected flag is consulted). -/
structure PersistedFile where
  isSelected : Bool
deriving DecidableEq

/-- A live engine file with its current selection state; after a restore
add the engine default is selected. -/
structure LiveFile where
  selected : Bool
deriving DecidableEq

/-- Embedding of the selection-reconciliation block of the restore
callback (torrent-service.js): when both the persisted and the live file
lists are non-empty and their counts match, each live file's selection is
set from the persisted flag of the same ordinal; when the counts differ,
the live list is left untouched and the mismatch warning is logged (the
Bool component); when either list is empty the block is skipped
silently. The block is a total function of its inputs — it never
throws. -/
def applySelection (persisted : List PersistedFile)
    (live : List LiveFile) : List LiveFile × Bool :=
  if persisted.length > 0 ∧ live.length > 0 then
    if persisted.length = live.length then
      ((persisted.zip live).map
        (fun pl => { selected := pl.1.isSelected }), false)
    else (live, true)
  else (live, false)

/-- C7 amended: for non-empty persisted and live file lists, matching
counts reapply the persisted per-file selection index by index (the
resulting live list carries exactly the persisted flags, in order) with
no warning; mismatching counts leave every live file untouched — hence
still in the engine default all-selected state — and log the
reconciliation warning; and the block never throws. Warning: with an
empty persisted list the block is skipped silently even though the
counts differ, which is why the claim as stated is refuted by the
counterexample. -/
theorem c7_amended_selection_reconciliation
    (persisted : List PersistedFile) (live : List LiveFile)
    (hp : persisted ≠ []) (hl : live ≠ []) :
    (persisted.length = live.length →
       applySelection persisted live =
         (persisted.map (fun f => { selected := f.isSelected }), false))
    ∧ (persisted.length ≠ live.length →
       applySelection persisted live = (live, true)) := by
  have hcond : persisted.length > 0 ∧ live.length > 0 :=
    ⟨List.length_pos.mpr hp, List.length_pos.mpr hl⟩
  constructor
  · intro heq
    unfold applySelection
    rw [if_pos hcond, if_pos heq]
    have hfst : (persisted.zip live).map Prod.fst = persisted :=
      List.map_fst_zip persisted live (le_of_eq heq)
    have : (persisted.zip live).map
        (fun pl => ({ selected := pl.1.isSelected } : LiveFile)) =
        persisted.map (fun f => { selected := f.isSelected }) := by
      conv_rhs => rw [← hfst]
      rw [List.map_map]
      exact List.map_congr_left fun pl _ => rfl
    rw [this]
  · intro hne
    unfold applySelection
    rw [if_pos hcond, if_neg hne]

/-- C7 counterexample: an empty persisted file list against two live
files has differing counts (0 versus 2), yet the block logs no
reconciliation warning — refuting the claim that any count mismatch is
warned about. -/
theorem c7_counterexample :
    ([] : List PersistedFile).length ≠
        [({ selected := true } : LiveFile), { selected := true }].length
    ∧ (applySelection []
        [{ selected := true }, { selected := true }]).2 = false := by
  constructor
  · decide
  · decide

/-- Witness for the C7 amended theorem at the spec's test vector: three
persisted selections against two live files leave both live files in the
default selected state and log the warning. -/
theorem c7_witness :
    applySelection
      [{ isSelected := true }, { isSelected := false },
       { isSelected := true }]
      [{ selected := true }, { selected := true }] =
      ([{ selected := true }, { selected := true }], true) := by
  exact (c7_amended_selection_reconciliation
    [{ isSelected := true }, { isSelected := false },
     { isSelected := true }]
    [{ selected := true }, { selected := true }]
    (by decide) (by decide)).2 (by decide)

end Restore

namespace Toggle

/-- The persisted record fields toggleTorrentState consults. -/
structure ToggleRecord where
  infoHash : String
  magnetURI : String
  isPaused : Bool
deriving DecidableEq

/-- The success payload toggleTorrentState returns. -/
structure ToggleResult where
  success : Bool
  isPaused : Bool
deriving DecidableEq

/-- The state a toggle call sees and leaves behind: the persisted record
for the identifier, the live session for it (if any), and whether the
call added a new session to the client. -/
structure ClientState where
  record : Option ToggleRecord
  session : Option String
  created : Bool
deriving DecidableEq

/-- JavaScript property access on a possibly-null object: reading a
property of null throws a TypeError. -/
def jsProp (o : Option String) : Except String String :=
  match o with
  | none => Except.error "TypeError: cannot read infoHash of null"
  | some s => Except.ok s

/-- Embedding of toggleTorrentState (torrent-service.js). With a live
session, the call flips the persisted flag and reports the flipped state.
Without a live session: the resume branch first persists isPaused false,
then builds the client.add options whose storeName field reads
torrent.infoHash from the torrent variable — which in this branch is the
null result of client.get — so the access throws and the outer catch
rethrows after logging; the pause branch only persists isPaused true. -/
def toggleTorrentState (st : ClientState) :
    ClientState × Except String ToggleResult :=
  match st.record with
  | none => (st, Except.error "torrent not found")
  | some dbTorrent =>
      match st.session with
      | some _ =>
          if dbTorrent.isPaused then
            ({ st with record := some { dbTorrent with isPaused := false } },
             Except.ok { success := true, isPaused := false })
          else
            ({ st with record := some { dbTorrent with isPaused := true } },
             Except.ok { success := true, isPaused := true })
      | none =>
          if dbTorrent.isPaused then
            match jsProp st.session with
            | Except.error e =>
                ({ st with
                    record := some { dbTorrent with isPaused := false } },
                 Except.error e)
            | Except.ok _ =>
                ({ record := some { dbTorrent with isPaused := false },
                   session := some dbTorrent.infoHash, created := true },
                 Except.ok { success := true, isPaused := false })
          else
            ({ st with record := some { dbTorrent with isPaused := true } },
             Except.ok { success := true, isPaused := true })

/-- The failing input of C8: a paused persisted record with no live
session. -/
def cex8State : ClientState :=
  { record := some { infoHash := "aaa", magnetURI := "magnet:aaa",
                     isPaused := true },
    session := none, created := false }

/-- C8: evaluating toggle at a paused record with no live session shows
the code bug — the call persists isPaused false and then throws the
TypeError from reading infoHash off the null client.get result, so no
session is recreated and no paused state is returned; by contrast, pause
without a session works as specified, persisting the flag and returning
paused true. -/
theorem c8_toggle_without_session :
    ((toggleTorrentState cex8State).2 =
        Except.error "TypeError: cannot read infoHash of null"
     ∧ (toggleTorrentState cex8State).1.created = false
     ∧ (toggleTorrentState cex8State).1.session = none
     ∧ (toggleTorrentState cex8State).1.record =
         some { infoHash := "aaa", magnetURI := "magnet:aaa",
                isPaused := false })
    ∧ (toggleTorrentState
         { record := some { infoHash := "bbb", magnetURI := "magnet:bbb",
                            isPaused := false },
           session := none, created := false }).2 =
        Except.ok { success := true, isPaused := true } := by
  constructor
  · exact ⟨rfl, rfl, rfl, rfl⟩
  · rfl

end Toggle

namespace AddTorrent

/-- Observable events of one addTorrent call: issuing the engine remove
for a pre-existing session, the completion or failure of its teardown,
and the creation of the replacement session. -/
inductive AddEvent where
  | removeIssued (id : String)
  | teardownCompleted (id : String)
  | removeFailed (id : String)
  | sessionCreated (id : String)
deriving DecidableEq

/-- Control-flow trace of one addTorrent call for an identifier whose
magnet URI parses (torrent-service.js addTorrent), parameterized by
whether a session for the identifier already exists in the client,
whether that object is a standard engine instance (exposes event
methods), and whether the engine remove succeeds. With a standard
instance, remove is called with a callback: on success addNewTorrent
runs from a 1s timer after the teardown callback, so teardown completes
before creation; on failure the error callback calls addNewTorrent at
once. With a non-standard instance, remove is fired without a callback
and addNewTorrent runs in the same synchronous continuation, so the
asynchronous teardown can only complete after the new session was
created (JavaScript runs the pending completion only once the current
synchronous execution yields). -/
def addTorrentTrace (id : String) (existing standard removeOk : Bool) :
    List AddEvent :=
  if existing then
    if standard then
      if removeOk then
        [AddEvent.removeIssued id, AddEvent.teardownCompleted id,
         AddEvent.sessionCreated id]
      else
        [AddEvent.removeIssued id, AddEvent.removeFailed id,
         AddEvent.sessionCreated id]
    else
      [AddEvent.removeIssued id, AddEvent.sessionCreated id,
       AddEvent.teardownCompleted id]
  else
    [AddEvent.sessionCreated id]

/-- Engine registry transition for one event: remove detaches the
session from the client registry synchronously; add registers the
identifier unless a session for it is already present (the engine
rejects duplicate adds); teardown completion and failure do not change
the registry. -/
def applyEvent (reg : List String) : AddEvent → List String
  | AddEvent.removeIssued id => reg.filter (fun x => !(x == id))
  | AddEvent.sessionCreated id => if reg.contains id then reg else id :: reg
  | AddEvent.teardownCompleted _ => reg
  | AddEvent.removeFailed _ => reg

/-- Registry after a sequence of events. -/
def runEvents (reg : List String) (tr : List AddEvent) : List String :=
  tr.foldl applyEvent reg

theorem count_filter_ne_self (reg : List String) (id : String) :
    (reg.filter (fun x => !(x == id))).count id = 0 := by
  rw [List.count_eq_zero]
  intro hmem
  have hp := List.of_mem_filter hmem
  simp at hp

theorem applyEvent_count (reg : List String) (e : AddEvent) (id : String)
    (h : reg.count id ≤ 1) : (applyEvent reg e).count id ≤ 1 := by
  cases e with
  | removeIssued j =>
      by_cases hj : j = id
      · subst hj
        simp [applyEvent, count_filter_ne_self]
      · refine le_trans ?_ h
        exact List.Sublist.count_le (List.filter_sublist reg) id
  | teardownCompleted j => exact h
  | removeFailed j => exact h
  | sessionCreated j =>
      simp only [applyEvent]
      by_cases hm : j ∈ reg
      · rw [if_pos (by simpa using hm)]
        exact h
      · rw [if_neg (by simpa using hm)]
        by_cases hj : j = id
        · subst hj
          rw [List.count_cons_self, List.count_eq_zero.mpr hm]
        · rw [List.count_cons_of_ne (fun hx => hj hx.symm)]
          exact h

theorem runEvents_count (tr : List AddEvent) :
    ∀ (reg : List String) (id : String), reg.count id ≤ 1 →
    (runEvents reg tr).count id ≤ 1 := by
  induction tr with
  | nil => intro reg id h; exact h
  | cons e tr ih =>
      intro reg id h
      exact ih (applyEvent reg e) id (applyEvent_count reg e id h)

theorem runEvents_append (reg : List String) (t1 t2 : List AddEvent) :
    runEvents reg (t1 ++ t2) = runEvents (runEvents reg t1) t2 := by
  unfold runEvents
  exact List.foldl_append _ _ _ _

/-- C2 counterexample: when the pre-existing session is not a standard
engine instance, addTorrent fires the remove without a callback and
creates the replacement session in the same synchronous continuation —
the new session is created strictly before the prior teardown completes,
refuting the claim that the teardown always completes first. -/
theorem c2_counterexample :
    (addTorrentTrace "aaa" true false true).indexOf
        (AddEvent.sessionCreated "aaa") <
      (addTorrentTrace "aaa" true false true).indexOf
        (AddEvent.teardownCompleted "aaa") := by
  decide

/-- C2 amended: after any sequence of addTorrent calls for an identifier
— whatever mixture of pre-existing-session, standard-instance and
removal-success conditions each call encounters — the engine registry
holds at most one live session for that identifier (the engine replaces
rather than duplicates); and the prior teardown is awaited before the
replacement session is created in the path where the existing object is
a standard instance and its removal succeeds. In the other replacement
paths creation happens without awaiting teardown (see the
counterexample). -/
theorem c2_amended_single_session (id : String) (reg : List String)
    (calls : List (Bool × Bool × Bool)) (h : reg.count id ≤ 1) :
    (runEvents reg ((calls.map (fun c =>
        addTorrentTrace id c.1 c.2.1 c.2.2)).flatten)).count id ≤ 1
    ∧ ∀ j : String,
        (addTorrentTrace j true true true).indexOf
            (AddEvent.teardownCompleted j) <
          (addTorrentTrace j true true true).indexOf
            (AddEvent.sessionCreated j) := by
  constructor
  · exact runEvents_count _ reg id h
  · intro j
    show (List.indexOf _ [AddEvent.removeIssued j,
      AddEvent.teardownCompleted j, AddEvent.sessionCreated j]) <
      (List.indexOf _ [AddEvent.removeIssued j,
        AddEvent.teardownCompleted j, AddEvent.sessionCreated j])
    rw [List.indexOf_cons_ne _ (by simp), List.indexOf_cons_self]
    rw [List.indexOf_cons_ne _ (by simp),
      List.indexOf_cons_ne _ (by simp), List.indexOf_cons_self]
    omega

/-- Witness for the C2 amended theorem: two rapid addTorrent calls for
the same identifier against an initially empty registry — the second
finding the session of the first — leave exactly one live session. -/
theorem c2_witness :
    (runEvents [] (([(false, true, true), (true, true, true)].map
        (fun c => addTorrentTrace "aaa" c.1 c.2.1 c.2.2)).flatten)).count
      "aaa" ≤ 1 := by
  exact (c2_amended_single_session "aaa" []
    [(false, true, true), (true, true, true)] (by decide)).1

end AddTorrent

namespace TrackerUtils

/-- Witness for C10 at the concrete code-point string AbC (65, 98, 67):
normalizing twice equals normalizing once and no output code point is an
uppercase letter. -/
theorem c10_witness :
    normalizeInfoHash (normalizeInfoHash [65, 98, 67]) =
      normalizeInfoHash [65, 98, 67]
    ∧ ∀ c ∈ normalizeInfoHash [65, 98, 67], ¬ isUpperCode c :=
  c10_normalize_idempotent_lowercase [65, 98, 67]

end TrackerUtils

namespace Store

/-- Witness for the C9 amended theorem at the two concrete engine files:
the sampler-path persistence yields pairwise distinct ordinals. -/
theorem c9_witness :
    (indexesOf (addTorrentFiles [] "t1"
      (samplerFileRecords cex9Files)) "t1").Nodup :=
  c9_amended_sampler_indexes_unique [] "t1" cex9Files

end Store
